import Mathlib

/-!
Formal model of the UDP tracker scraper (src/tracker_scraper.rs).

The program reads CSV lines of torrent metadata, partitions the valid
identifiers into batches, queries a fixed set of UDP trackers with the
BitTorrent scrape protocol, consolidates the per-tracker answers into a
tri-state verdict per identifier (Failed / Alive / Dead), and maintains
progress counters.

This file gives a shallow embedding of the pure core of that program:
  - machine integers become Nat (u32/u64 byte encodings carry explicit
    `% 256` / bound hypotheses where overflow matters);
  - `HashMap<String, TorrentStats>` becomes an association list whose
    lookup returns the most recently inserted binding, matching the
    overwrite semantics of `HashMap::insert`;
  - datagrams become `List Nat` of byte values; a potentially
    out-of-bounds slice index becomes an `Option`-returning read, so that
    "decoding never panics" is the statement that the decoder never
    returns `none`;
  - the network is abstracted as explicit parameters: the datagrams a
    session receives, and the list of per-tracker result maps handed to
    the consolidation loop.
-/

/-- Per-identifier statistics as returned by one tracker
(struct `TorrentStats` in the source; counts are u32). -/
structure TorrentStats where
  seeders : Nat
  leechers : Nat
deriving DecidableEq

/-- A parsed CSV line (struct `CsvRecord` in the source).
`seeders`/`leechers` are u32, `scraped_date` is i64; the remaining
fields are kept as raw strings exactly as in the source. -/
structure CsvRecord where
  infohash : String
  name : String
  size_bytes : String
  created_unix : String
  seeders : Nat
  leechers : Nat
  completed : String
  scraped_date : Int
deriving DecidableEq

/-- Model of `HashMap<String, TorrentStats>`: an association list where
insertion conses in front and lookup takes the first (= newest) match. -/
abbrev ResultMap := List (String × TorrentStats)

/-- Lookup, modelling `HashMap::get`. -/
def mget (m : ResultMap) (k : String) : Option TorrentStats :=
  (List.find? (fun p => p.1 == k) m).map (fun p => p.2)

/-- Big-endian value of four bytes (`u32::from_be_bytes`). -/
def be32 (b0 b1 b2 b3 : Nat) : Nat :=
  ((b0 * 256 + b1) * 256 + b2) * 256 + b3

/-- Byte of a datagram at an index, defaulting to 0 (used only at
indices proven to be in bounds). -/
def byteAt (l : List Nat) (i : Nat) : Nat :=
  (l.get? i).getD 0

/-- Big-endian u32 read at an offset of a datagram. -/
def be32at (l : List Nat) (i : Nat) : Nat :=
  be32 (byteAt l i) (byteAt l (i + 1)) (byteAt l (i + 2)) (byteAt l (i + 3))

/-- Big-endian u64 read at an offset of a datagram
(`u64::from_be_bytes` on bytes i..i+7). -/
def be64at (l : List Nat) (i : Nat) : Nat :=
  ((((((byteAt l i * 256 + byteAt l (i + 1)) * 256 + byteAt l (i + 2)) * 256
      + byteAt l (i + 3)) * 256 + byteAt l (i + 4)) * 256 + byteAt l (i + 5)) * 256
      + byteAt l (i + 6)) * 256 + byteAt l (i + 7)

/-- `u32::to_be_bytes`. -/
def u32ToBeBytes (v : Nat) : List Nat :=
  [v / 16777216 % 256, v / 65536 % 256, v / 256 % 256, v % 256]

/-- `u64::to_be_bytes`. -/
def u64ToBeBytes (v : Nat) : List Nat :=
  [v / 72057594037927936 % 256, v / 281474976710656 % 256,
   v / 1099511627776 % 256, v / 4294967296 % 256,
   v / 16777216 % 256, v / 65536 % 256, v / 256 % 256, v % 256]

/-- The connect request datagram built by `scrape_udp_tracker`
(lines 94-98): magic constant, action 0, transaction id. -/
def connectRequest (transactionId : Nat) : List Nat :=
  u64ToBeBytes 0x41727101980 ++ u32ToBeBytes 0 ++ u32ToBeBytes transactionId

/-- Validation of the connect response (lines 104-117): the received
datagram must be exactly 16 bytes, action 0, and echo the request's
transaction id; then the 8-byte connection token is returned.  Any
other shape yields `none`, which the session turns into an empty
result. -/
def parseConnectResponse (resp : List Nat) (transactionId : Nat) : Option Nat :=
  if resp.length = 16 then
    if be32at resp 0 ≠ 0 ∨ be32at resp 4 ≠ transactionId then none
    else some (be64at resp 8)
  else none

/-- ASCII model of `char::to_lowercase` as used on hex identifier
strings. -/
def lowerChar (c : Char) : Char :=
  if 'A' ≤ c ∧ c ≤ 'Z' then Char.ofNat (c.toNat + 32) else c

/-- Model of `str::to_lowercase` (ASCII fragment, which is all the
identifiers exercise). -/
def lowerStr (s : String) : String :=
  String.mk (s.data.map lowerChar)

/-- One hex digit character of `hex::encode` (lowercase). -/
def hexDigitChar (n : Nat) : Char :=
  if n < 10 then Char.ofNat (48 + n) else Char.ofNat (87 + n)

/-- `hex::encode`: two lowercase hex characters per byte. -/
def hexEncode (bs : List Nat) : String :=
  String.mk (bs.foldr (fun b acc => hexDigitChar (b / 16) :: hexDigitChar (b % 16) :: acc) [])

/-- The key under which `scrape_udp_tracker` stores a record:
`hex::encode(hash).to_lowercase()` (line 159). -/
def hexKey (bs : List Nat) : String :=
  lowerStr (hexEncode bs)

/-- Value of one hex character for `hex::decode` (both cases accepted). -/
def hexDigitVal (c : Char) : Option Nat :=
  if '0' ≤ c ∧ c ≤ '9' then some (c.toNat - 48)
  else if 'a' ≤ c ∧ c ≤ 'f' then some (c.toNat - 87)
  else if 'A' ≤ c ∧ c ≤ 'F' then some (c.toNat - 55)
  else none

/-- Character pairs to bytes, failing on odd length or non-hex input. -/
def hexPairs : List Char → Option (List Nat)
  | [] => some []
  | [_] => none
  | c1 :: c2 :: rest =>
    match hexDigitVal c1, hexDigitVal c2, hexPairs rest with
    | some hi, some lo, some bs => some ((16 * hi + lo) :: bs)
    | _, _, _ => none

/-- `hex::decode` on a string. -/
def hexDecode (s : String) : Option (List Nat) :=
  hexPairs s.data

/-- One 12-byte scrape record read at `offset`: seeders from bytes 0-3
and leechers from bytes 8-11, exactly the indices the source reads
(lines 146-157).  `none` models an out-of-bounds slice index, i.e. a
panic. -/
def readRecord (resp : List Nat) (offset : Nat) : Option TorrentStats :=
  match resp.get? offset, resp.get? (offset + 1), resp.get? (offset + 2),
        resp.get? (offset + 3), resp.get? (offset + 8), resp.get? (offset + 9),
        resp.get? (offset + 10), resp.get? (offset + 11) with
  | some b0, some b1, some b2, some b3, some c0, some c1, some c2, some c3 =>
    some ⟨be32 b0 b1 b2 b3, be32 c0 c1 c2 c3⟩
  | _, _, _, _, _, _, _, _ => none

/-- The decode loop of `scrape_udp_tracker` (lines 143-164): walk the
requested hashes in order; while `offset + 12 ≤ n` read a record and
insert it under the hash's hex key, advancing the offset; afterwards
skip the remaining hashes without touching the offset. -/
def scrapeLoop (resp : List Nat) : List (List Nat) → Nat → ResultMap → Option ResultMap
  | [], _, acc => some acc
  | h :: rest, offset, acc =>
    if offset + 12 ≤ resp.length then
      match readRecord resp offset with
      | some stats => scrapeLoop resp rest (offset + 12) ((hexKey h, stats) :: acc)
      | none => none
    else scrapeLoop resp rest offset acc

/-- Handling of the scrape response (lines 136-167): with at least 8
bytes, action 2 and the echoed transaction id, run the record loop over
the first `min 74 k` hashes starting at offset 8; otherwise leave the
result map empty. -/
def decodeScrapeResponse (resp : List Nat) (scrapeTransId : Nat)
    (infohashes : List (List Nat)) : Option ResultMap :=
  if 8 ≤ resp.length ∧ be32at resp 0 = 2 ∧ be32at resp 4 = scrapeTransId then
    scrapeLoop resp (infohashes.take (min 74 infohashes.length)) 8 []
  else some []

/-- The response-processing core of `scrape_udp_tracker`: the network
sends and receives are abstracted into the two received datagrams; every
validation failure yields the empty result map, as in the source where
each early `return results` returns the still-empty map. -/
def scrape_udp_tracker (connectTransId scrapeTransId : Nat)
    (connectResp scrapeResp : List Nat) (infohashes : List (List Nat)) : ResultMap :=
  match parseConnectResponse connectResp connectTransId with
  | none => []
  | some _ => (decodeScrapeResponse scrapeResp scrapeTransId infohashes).getD []

/-- `str::split(';')` on the character list of a line: all segments,
including empty ones; splitting the empty string yields one empty
segment. -/
def splitSemi : List Char → List (List Char)
  | [] => [[]]
  | c :: rest =>
    if c = ';' then [] :: splitSemi rest
    else
      match splitSemi rest with
      | [] => [[c]]
      | f :: fs => (c :: f) :: fs

/-- The first `;`-separated field of a line
(`line.split(';').next()`, which always yields a segment). -/
def firstField (line : String) : String :=
  String.mk ((splitSemi line.data).headD [])

/-- UTF-8 byte length of a character list (`str::len`). -/
def utf8Len (cs : List Char) : Nat :=
  cs.foldl (fun n c => n + c.utf8Size) 0

/-- Digit-string to number, `none` unless nonempty and all ASCII
digits. -/
def parseNatChars (cs : List Char) : Option Nat :=
  if cs ≠ [] ∧ cs.all (fun c => '0' ≤ c && c ≤ '9') then
    some (cs.foldl (fun a c => 10 * a + (c.toNat - 48)) 0)
  else none

/-- `str::parse::<u32>().unwrap_or(0)`: optional leading plus sign,
digits only, in u32 range, else 0. -/
def parseU32 (s : String) : Nat :=
  let cs := match s.data with
    | c :: rest => if c = '+' then rest else c :: rest
    | [] => []
  match parseNatChars cs with
  | some n => if n ≤ 4294967295 then n else 0
  | none => 0

/-- `str::parse::<i64>().unwrap_or(0)`: optional sign, digits only, in
i64 range, else 0. -/
def parseI64 (s : String) : Int :=
  match s.data with
  | '+' :: rest =>
    match parseNatChars rest with
    | some n => if n ≤ 9223372036854775807 then (n : Int) else 0
    | none => 0
  | '-' :: rest =>
    match parseNatChars rest with
    | some n => if n ≤ 9223372036854775808 then -(n : Int) else 0
    | none => 0
  | cs =>
    match parseNatChars cs with
    | some n => if n ≤ 9223372036854775807 then (n : Int) else 0
    | none => 0

/-- `CsvRecord::from_line` (lines 43-59): split on `;`, require at
least 8 fields, keep fields 0-3 and 6 as strings, parse 4, 5 and 7
numerically with fallback 0. -/
def CsvRecord.from_line (line : String) : Option CsvRecord :=
  let parts := (splitSemi line.data).map String.mk
  if parts.length < 8 then none
  else some
    { infohash := parts.getD 0 ""
      name := parts.getD 1 ""
      size_bytes := parts.getD 2 ""
      created_unix := parts.getD 3 ""
      seeders := parseU32 (parts.getD 4 "")
      leechers := parseU32 (parts.getD 5 "")
      completed := parts.getD 6 ""
      scraped_date := parseI64 (parts.getD 7 "") }

/-- The tri-state verdict of the consolidation loop. -/
inductive Verdict where
  | failed : Verdict
  | alive : Nat → Nat → Verdict
  | dead : Verdict
deriving DecidableEq

/-- One step of the consolidation loop (lines 240-246): look the hash
up in one tracker's map; on a hit update the running maxima and record
success. -/
def consolidateStep (hash : String) (acc : Nat × Nat × Bool) (m : ResultMap) :
    Nat × Nat × Bool :=
  match mget m hash with
  | some stats => (max acc.1 stats.seeders, max acc.2.1 stats.leechers, true)
  | none => acc

/-- The consolidation loop over all per-tracker result maps, starting
from `(0, 0, false)` as in the source (lines 236-246). -/
def consolidateStats (hash : String) (allResults : List ResultMap) : Nat × Nat × Bool :=
  allResults.foldl (consolidateStep hash) (0, 0, false)

/-- The verdict encoded by the branch structure of lines 250-263:
no success is Failed, a positive maximum is Alive with the maxima,
otherwise Dead. -/
def classify (hash : String) (allResults : List ResultMap) : Verdict :=
  let c := consolidateStats hash allResults
  if c.2.2 = false then Verdict.failed
  else if 0 < c.1 ∨ 0 < c.2.1 then Verdict.alive c.1 c.2.1
  else Verdict.dead

/-- Output of the consolidation loop body for one (line index, hash)
pair (lines 230-264): Failed keeps the parsed original record, Alive
overwrites seeders/leechers/scraped_date, Dead emits `none`; in the
first two cases nothing is pushed when the line fails to parse. -/
def processPair (dataLines : List String) (allResults : List ResultMap) (now : Int)
    (p : Nat × String) : Option (Nat × Option CsvRecord) :=
  let hash := lowerStr p.2
  let c := consolidateStats hash allResults
  let originalLine := dataLines.getD p.1 ""
  if c.2.2 = false then
    (CsvRecord.from_line originalLine).map (fun r => (p.1, some r))
  else if 0 < c.1 ∨ 0 < c.2.1 then
    (CsvRecord.from_line originalLine).map (fun r =>
      (p.1, some { r with seeders := c.1, leechers := c.2.1, scraped_date := now }))
  else some (p.1, none)

/-- The byte strings actually sent to the network for a batch
(lines 208-212): hashes that hex-decode to exactly 20 bytes. -/
def batchHashBytes (batchHashes : List String) : List (List Nat) :=
  (batchHashes.filterMap (fun h => hexDecode h)).filter (fun b => b.length = 20)

/-- `process_batch` (lines 203-267) with the network abstracted: the
per-tracker result maps obtained for `batchHashBytes batchHashes` are
passed in as `allResults`, and `chrono::Utc::now().timestamp()` as
`now`.  When no hash decodes, the early path returns each index with
its parsed line; otherwise the consolidation loop runs over the
index/hash pairs (the enumerate-with-break of the source is exactly
`zip`). -/
def process_batch (batchIndices : List Nat) (batchHashes : List String)
    (dataLines : List String) (allResults : List ResultMap) (now : Int) :
    List (Nat × Option CsvRecord) :=
  if batchHashBytes batchHashes = [] then
    batchIndices.map (fun idx => (idx, CsvRecord.from_line (dataLines.getD idx "")))
  else
    (batchIndices.zip batchHashes).filterMap (processPair dataLines allResults now)

/-- Batch construction for one window start `i` (lines 335-346): indices
`i` up to `min (i+50) total` whose line has a nonempty first field of
exactly 40 bytes, paired with that field. -/
def batchFor (dataLines : List String) (i : Nat) : List (Nat × String) :=
  (List.range' i (min (i + 50) dataLines.length - i)).filterMap (fun idx =>
    let f := firstField (dataLines.getD idx "")
    if f ≠ "" ∧ utf8Len f.data = 40 then some (idx, f) else none)

/-- The window starts visited by the nested scheduling loops
(lines 326-333): chunks of 500 positions, ten batch offsets of 50 each,
stopping (`break`) once the start passes the end; since starts increase
with the offset, the break is exactly the `i < total` filter. -/
def batchStarts (total : Nat) : List Nat :=
  ((List.range ((total + 499) / 500)).map (fun c =>
    (List.range 10).filterMap (fun off =>
      if 500 * c + 50 * off < total then some (500 * c + 50 * off) else none))).flatten

/-- The batches actually processed for the given data lines: one per
window start, with empty batches skipped (line 348). -/
def planBatches (dataLines : List String) : List (List (Nat × String)) :=
  ((batchStarts dataLines.length).map (fun i => batchFor dataLines i)).filter
    (fun b => ¬ b = [])

/-- One step of the shared progress counters (lines 362-371), in order
(processed, alive, dead, failed): every emitted entry is processed; an
emitted record with positive counts is alive, with zero counts failed;
a dropped record is dead. -/
def countStep (s : Nat × Nat × Nat × Nat) (r : Nat × Option CsvRecord) :
    Nat × Nat × Nat × Nat :=
  match r.2 with
  | some record =>
    if 0 < record.seeders ∨ 0 < record.leechers then (s.1 + 1, s.2.1 + 1, s.2.2.1, s.2.2.2)
    else (s.1 + 1, s.2.1, s.2.2.1, s.2.2.2 + 1)
  | none => (s.1 + 1, s.2.1, s.2.2.1 + 1, s.2.2.2)

/-- The counters accumulated over a list of emitted batch results. -/
def countStats (rs : List (Nat × Option CsvRecord)) : Nat × Nat × Nat × Nat :=
  rs.foldl countStep (0, 0, 0, 0)

/-- The multiset of entries a fixed identifier receives across the
per-tracker result maps ("the servers that answered for it"). -/
def observations (hash : String) (rs : List ResultMap) : List TorrentStats :=
  rs.filterMap (fun m => mget m hash)

/-- Maximum of a list of naturals, 0 for the empty list. -/
def maxList (l : List Nat) : Nat :=
  l.foldr max 0

/- Concrete data used by the closed witness and counterexample
theorems below. -/

/-- A 40-character lowercase hex identifier. -/
def hashA : String := String.mk (List.replicate 40 'a')

/-- A well-formed CSV line for `hashA` whose stored record still claims
5 seeders. -/
def lineA : String := hashA ++ ";name;100;200;5;0;3;4"

/-- A 40-byte first field that is not hex. -/
def hashG : String := String.mk (List.replicate 40 'g')

/-- A well-formed CSV line whose identifier field is `hashG`. -/
def lineG : String := hashG ++ ";n;1;2;3;4;5;6"

/-- A tracker result map answering `(2, 3)` for `hashA`. -/
def mapA : ResultMap := [(hashA, ⟨2, 3⟩)]

/-- A tracker result map answering `(7, 1)` for `hashA`. -/
def mapB : ResultMap := [(hashA, ⟨7, 1⟩)]

/-- A tracker result map answering `(0, 0)` for `hashA`. -/
def mapZ : ResultMap := [(hashA, ⟨0, 0⟩)]

/-- Does a verdict carry the Alive constructor? -/
def vIsAlive : Verdict → Bool
  | Verdict.alive _ _ => true
  | _ => false

/-- Is a verdict Dead? -/
def vIsDead : Verdict → Bool
  | Verdict.dead => true
  | _ => false

/-- Is a verdict Failed? -/
def vIsFailed : Verdict → Bool
  | Verdict.failed => true
  | _ => false

/-- Does the line at an index parse as a CSV record? -/
def parsesOk (dataLines : List String) (idx : Nat) : Bool :=
  (CsvRecord.from_line (dataLines.getD idx "")).isSome

/-- Does the stored record at an index carry positive seeders or
leechers? -/
def origNonzero (dataLines : List String) (idx : Nat) : Bool :=
  match CsvRecord.from_line (dataLines.getD idx "") with
  | some c => decide (0 < c.seeders ∨ 0 < c.leechers)
  | none => false

/-- An emitted entry the counter loop classifies as alive: a kept
record with positive counts. -/
def emittedAlive (r : Nat × Option CsvRecord) : Bool :=
  match r.2 with
  | some c => decide (0 < c.seeders ∨ 0 < c.leechers)
  | none => false

/-- An emitted entry the counter loop classifies as dead: a dropped
record. -/
def emittedDead (r : Nat × Option CsvRecord) : Bool :=
  r.2.isNone

/-- An emitted entry the counter loop classifies as failed: a kept
record with zero counts. -/
def emittedFailed (r : Nat × Option CsvRecord) : Bool :=
  match r.2 with
  | some c => decide (c.seeders = 0 ∧ c.leechers = 0)
  | none => false

/-- A concrete 20-byte scrape response: valid header (action 2,
transaction id 7) followed by one complete 12-byte record. -/
def respW : List Nat := [0, 0, 0, 2, 0, 0, 0, 7, 0, 0, 0, 5, 0, 0, 0, 9, 0, 0, 0, 3]

/-- Two distinct concrete 20-byte identifiers. -/
def hashesW : List (List Nat) := [List.replicate 20 0, List.replicate 20 255]

/- ------------------------------------------------------------------
Helper lemmas.
------------------------------------------------------------------ -/

theorem maxList_cons (x : Nat) (l : List Nat) :
    maxList (x :: l) = max x (maxList l) := rfl

theorem le_maxList {x : Nat} {l : List Nat} (hx : x ∈ l) : x ≤ maxList l := by
  induction l with
  | nil => cases hx
  | cons a t ih =>
    rcases List.mem_cons.mp hx with rfl | hx
    · exact le_max_left _ _
    · exact le_trans (ih hx) (le_max_right _ _)

theorem maxList_eq_zero {l : List Nat} (h : ∀ x ∈ l, x = 0) : maxList l = 0 := by
  induction l with
  | nil => rfl
  | cons a t ih =>
    rw [maxList_cons, h a (List.mem_cons_self a t), ih (fun x hx => h x (List.mem_cons_of_mem a hx))]
    rfl

theorem maxList_perm {l1 l2 : List Nat} (h : l1.Perm l2) : maxList l1 = maxList l2 := by
  induction h with
  | nil => rfl
  | cons x _ ih => rw [maxList_cons, maxList_cons, ih]
  | swap x y l =>
    rw [maxList_cons, maxList_cons, maxList_cons, maxList_cons, max_left_comm]
  | trans _ _ ih1 ih2 => rw [ih1, ih2]

theorem isEmpty_eq_of_perm {α : Type} {l1 l2 : List α} (h : l1.Perm l2) :
    l1.isEmpty = l2.isEmpty := by
  have := h.length_eq
  cases l1 <;> cases l2 <;> simp_all

/-- The consolidation loop from an arbitrary accumulator computes the
running maxima over the observations and whether any server answered. -/
theorem consolidate_foldl (hash : String) (rs : List ResultMap) :
    ∀ (a b : Nat) (s : Bool),
      rs.foldl (consolidateStep hash) (a, b, s) =
        (max a (maxList ((observations hash rs).map TorrentStats.seeders)),
         max b (maxList ((observations hash rs).map TorrentStats.leechers)),
         s || !(observations hash rs).isEmpty) := by
  induction rs with
  | nil => intro a b s; simp [observations, maxList]
  | cons m rest ih =>
    intro a b s
    rcases hm : mget m hash with _ | v
    · have hobs : observations hash (m :: rest) = observations hash rest := by
        simp [observations, List.filterMap_cons, hm]
      rw [List.foldl_cons]
      have hstep : consolidateStep hash (a, b, s) m = (a, b, s) := by
        simp [consolidateStep, hm]
      rw [hstep, ih, hobs]
    · have hobs : observations hash (m :: rest) = v :: observations hash rest := by
        simp [observations, List.filterMap_cons, hm]
      rw [List.foldl_cons]
      have hstep : consolidateStep hash (a, b, s) m =
          (max a v.seeders, max b v.leechers, true) := by
        simp [consolidateStep, hm]
      rw [hstep, ih, hobs]
      simp [maxList_cons, max_assoc]

/-- Closed form of `consolidateStats`. -/
theorem consolidateStats_eq (hash : String) (rs : List ResultMap) :
    consolidateStats hash rs =
      (maxList ((observations hash rs).map TorrentStats.seeders),
       maxList ((observations hash rs).map TorrentStats.leechers),
       !(observations hash rs).isEmpty) := by
  rw [consolidateStats, consolidate_foldl]
  simp

/- ------------------------------------------------------------------
Claim theorems.
------------------------------------------------------------------ -/

/-- Claim C9: for every transaction id `t`, the encoded connect request
is exactly 16 bytes: bytes 0-7 are the big-endian magic constant
0x0000041727101980, bytes 8-11 the big-endian action 0, and bytes 12-15
are `t` in big-endian. -/
theorem connect_request_layout (t : Nat) (ht : t < 4294967296) :
    (connectRequest t).length = 16 ∧
    (connectRequest t).take 8 = [0x00, 0x00, 0x04, 0x17, 0x27, 0x10, 0x19, 0x80] ∧
    ((connectRequest t).drop 8).take 4 = [0, 0, 0, 0] ∧
    (connectRequest t).drop 12 = u32ToBeBytes t ∧
    be32at (connectRequest t) 12 = t := by
  refine ⟨rfl, rfl, rfl, rfl, ?_⟩
  show be32 (t / 16777216 % 256) (t / 65536 % 256) (t / 256 % 256) (t % 256) = t
  unfold be32
  omega

/-- Witness for C9 at the concrete transaction id 0xDEADBEEF. -/
theorem connect_request_layout_app :
    (connectRequest 3735928559).length = 16 ∧
    (connectRequest 3735928559).take 8 = [0x00, 0x00, 0x04, 0x17, 0x27, 0x10, 0x19, 0x80] ∧
    ((connectRequest 3735928559).drop 8).take 4 = [0, 0, 0, 0] ∧
    (connectRequest 3735928559).drop 12 = u32ToBeBytes 3735928559 ∧
    be32at (connectRequest 3735928559) 12 = 3735928559 :=
  connect_request_layout 3735928559 (by decide)

/-- Claim C6: a connect response whose length is not exactly 16 bytes,
or whose action field is not 0, or whose transaction id does not echo
the request's, is discarded and the session yields the empty result
map.  The model is total, so no exception can escape. -/
theorem connect_invalid_discarded (ct st : Nat) (cresp sresp : List Nat)
    (hs : List (List Nat))
    (h : cresp.length ≠ 16 ∨ be32at cresp 0 ≠ 0 ∨ be32at cresp 4 ≠ ct) :
    scrape_udp_tracker ct st cresp sresp hs = [] := by
  have hnone : parseConnectResponse cresp ct = none := by
    unfold parseConnectResponse
    rcases h with h | h
    · rw [if_neg h]
    · by_cases hl : cresp.length = 16
      · rw [if_pos hl, if_pos h]
      · rw [if_neg hl]
  unfold scrape_udp_tracker
  rw [hnone]

/-- Witness for C6: a 3-byte connect response is discarded. -/
theorem connect_invalid_discarded_app :
    scrape_udp_tracker 5 6 [1, 2, 3] [] [] = [] :=
  connect_invalid_discarded 5 6 [1, 2, 3] [] [] (Or.inl (by decide))

/-- Claim C2: for a fixed identifier, the triple computed by the
consolidation loop (max seeders, max leechers, any success) and hence
the verdict are invariant under any permutation of the per-tracker
result maps. -/
theorem consolidate_perm_invariant (hash : String) (rs1 rs2 : List ResultMap)
    (hp : rs1.Perm rs2) :
    consolidateStats hash rs1 = consolidateStats hash rs2 ∧
    classify hash rs1 = classify hash rs2 := by
  have hobs : (observations hash rs1).Perm (observations hash rs2) :=
    hp.filterMap (fun m => mget m hash)
  have hcs : consolidateStats hash rs1 = consolidateStats hash rs2 := by
    rw [consolidateStats_eq, consolidateStats_eq,
      maxList_perm (hobs.map TorrentStats.seeders),
      maxList_perm (hobs.map TorrentStats.leechers), isEmpty_eq_of_perm hobs]
  exact ⟨hcs, by unfold classify; rw [hcs]⟩

/-- Witness for C2 on a concrete transposition of two tracker maps. -/
theorem consolidate_perm_invariant_app :
    consolidateStats hashA [mapA, mapB] = consolidateStats hashA [mapB, mapA] ∧
    classify hashA [mapA, mapB] = classify hashA [mapB, mapA] :=
  consolidate_perm_invariant hashA [mapA, mapB] [mapB, mapA]
    (List.Perm.swap mapB mapA [])

/-- Claim C8: once Alive under some list of tracker maps, appending one
more tracker map keeps the verdict Alive and never decreases the
reported maxima. -/
theorem alive_monotone (hash : String) (rs : List ResultMap) (m : ResultMap)
    (s l : Nat) (h : classify hash rs = Verdict.alive s l) :
    ∃ s2 l2, classify hash (rs ++ [m]) = Verdict.alive s2 l2 ∧ s ≤ s2 ∧ l ≤ l2 := by
  simp only [classify] at h
  by_cases h1 : (consolidateStats hash rs).2.2 = false
  · rw [if_pos h1] at h
    exact absurd h (by simp)
  · rw [if_neg h1] at h
    by_cases h2 : 0 < (consolidateStats hash rs).1 ∨ 0 < (consolidateStats hash rs).2.1
    · rw [if_pos h2] at h
      obtain ⟨hs, hl⟩ : (consolidateStats hash rs).1 = s ∧
          (consolidateStats hash rs).2.1 = l := by
        simpa using h
      have happ : consolidateStats hash (rs ++ [m]) =
          consolidateStep hash (consolidateStats hash rs) m := by
        unfold consolidateStats
        rw [List.foldl_append]
        rfl
      rcases hm : mget m hash with _ | v
      · have hc : consolidateStep hash (consolidateStats hash rs) m =
            consolidateStats hash rs := by
          simp [consolidateStep, hm]
        refine ⟨s, l, ?_, le_refl s, le_refl l⟩
        simp only [classify]
        rw [happ, hc, if_neg h1, if_pos h2, hs, hl]
      · have hc : consolidateStep hash (consolidateStats hash rs) m =
            (max (consolidateStats hash rs).1 v.seeders,
             max (consolidateStats hash rs).2.1 v.leechers, true) := by
          simp [consolidateStep, hm]
        refine ⟨max s v.seeders, max l v.leechers, ?_, le_max_left _ _, le_max_left _ _⟩
        simp only [classify]
        rw [happ, hc, hs, hl]
        have hpos : 0 < max s v.seeders ∨ 0 < max l v.leechers := by
          rw [hs, hl] at h2
          rcases h2 with h2 | h2
          · exact Or.inl (lt_of_lt_of_le h2 (le_max_left _ _))
          · exact Or.inr (lt_of_lt_of_le h2 (le_max_left _ _))
        rw [if_neg (by simp), if_pos hpos]
    · rw [if_neg h2] at h
      exact absurd h (by simp)

/-- Witness for C8: Alive(2,3) stays Alive with maxima not decreasing
after a further tracker map is appended. -/
theorem alive_monotone_app :
    ∃ s2 l2, classify hashA [mapA, mapB] = Verdict.alive s2 l2 ∧ 2 ≤ s2 ∧ 3 ≤ l2 :=
  alive_monotone hashA [mapA] mapB 2 3 (by decide)

/-- Claim C1: for each (line index, hash) pair the consolidation loop
emits exactly one of three verdicts.  No tracker entry: Failed, and the
parsed original record is kept unchanged (nothing is emitted when the
line does not parse).  Some entry with positive seeders or leechers:
Alive with the maxima over all tracker entries for the identifier, and
the record is updated.  At least one entry, all zero: Dead, and the
record is dropped (`none`). -/
theorem verdict_trichotomy (dataLines : List String) (rs : List ResultMap)
    (now : Int) (idx : Nat) (hash : String) :
    ((∀ m ∈ rs, mget m (lowerStr hash) = none) →
        classify (lowerStr hash) rs = Verdict.failed ∧
        processPair dataLines rs now (idx, hash) =
          (CsvRecord.from_line (dataLines.getD idx "")).map (fun r => (idx, some r))) ∧
    ((∃ m ∈ rs, ∃ v, mget m (lowerStr hash) = some v ∧ (0 < v.seeders ∨ 0 < v.leechers)) →
        classify (lowerStr hash) rs =
          Verdict.alive
            (maxList ((observations (lowerStr hash) rs).map TorrentStats.seeders))
            (maxList ((observations (lowerStr hash) rs).map TorrentStats.leechers)) ∧
        processPair dataLines rs now (idx, hash) =
          (CsvRecord.from_line (dataLines.getD idx "")).map (fun r =>
            (idx, some { r with
              seeders :=
                maxList ((observations (lowerStr hash) rs).map TorrentStats.seeders),
              leechers :=
                maxList ((observations (lowerStr hash) rs).map TorrentStats.leechers),
              scraped_date := now }))) ∧
    (((∃ m ∈ rs, (mget m (lowerStr hash)).isSome = true) ∧
      (∀ m ∈ rs, ∀ v, mget m (lowerStr hash) = some v → v.seeders = 0 ∧ v.leechers = 0)) →
        classify (lowerStr hash) rs = Verdict.dead ∧
        processPair dataLines rs now (idx, hash) = some (idx, none)) := by
  have hc := consolidateStats_eq (lowerStr hash) rs
  refine ⟨?_, ?_, ?_⟩
  · intro hnone
    have hobs : observations (lowerStr hash) rs = [] :=
      List.filterMap_eq_nil_iff.mpr hnone
    have hc0 : consolidateStats (lowerStr hash) rs = (0, 0, false) := by
      rw [hc, hobs]
      rfl
    constructor
    · simp only [classify, hc0]
      rfl
    · simp only [processPair, hc0]
      rfl
  · rintro ⟨m, hm, v, hv, hvpos⟩
    have hvmem : v ∈ observations (lowerStr hash) rs :=
      List.mem_filterMap.mpr ⟨m, hm, hv⟩
    have hE : (observations (lowerStr hash) rs).isEmpty = false := by
      cases hobs : observations (lowerStr hash) rs with
      | nil => rw [hobs] at hvmem; cases hvmem
      | cons a t => rfl
    have hS : 0 < maxList ((observations (lowerStr hash) rs).map TorrentStats.seeders) ∨
        0 < maxList ((observations (lowerStr hash) rs).map TorrentStats.leechers) := by
      rcases hvpos with hvpos | hvpos
      · exact Or.inl (lt_of_lt_of_le hvpos
          (le_maxList (List.mem_map_of_mem TorrentStats.seeders hvmem)))
      · exact Or.inr (lt_of_lt_of_le hvpos
          (le_maxList (List.mem_map_of_mem TorrentStats.leechers hvmem)))
    constructor
    · simp only [classify, hc, hE]
      rw [if_neg (by simp), if_pos hS]
    · simp only [processPair, hc, hE]
      rw [if_neg (by simp), if_pos hS]
  · rintro ⟨⟨m, hm, hsome⟩, hall⟩
    obtain ⟨v, hv⟩ := Option.isSome_iff_exists.mp hsome
    have hvmem : v ∈ observations (lowerStr hash) rs :=
      List.mem_filterMap.mpr ⟨m, hm, hv⟩
    have hE : (observations (lowerStr hash) rs).isEmpty = false := by
      cases hobs : observations (lowerStr hash) rs with
      | nil => rw [hobs] at hvmem; cases hvmem
      | cons a t => rfl
    have hS : maxList ((observations (lowerStr hash) rs).map TorrentStats.seeders) = 0 := by
      refine maxList_eq_zero ?_
      intro x hx
      obtain ⟨w, hwmem, rfl⟩ := List.mem_map.mp hx
      obtain ⟨m2, hm2, hw⟩ := List.mem_filterMap.mp hwmem
      exact (hall m2 hm2 w hw).1
    have hL : maxList ((observations (lowerStr hash) rs).map TorrentStats.leechers) = 0 := by
      refine maxList_eq_zero ?_
      intro x hx
      obtain ⟨w, hwmem, rfl⟩ := List.mem_map.mp hx
      obtain ⟨m2, hm2, hw⟩ := List.mem_filterMap.mp hwmem
      exact (hall m2 hm2 w hw).2
    have hc0 : consolidateStats (lowerStr hash) rs = (0, 0, true) := by
      rw [hc, hS, hL, hE]
      rfl
    constructor
    · simp only [classify, hc0]
      rfl
    · simp only [processPair, hc0]
      rfl

/-- Witness for C1: the three branches at concrete inputs — no tracker
map (Failed), two answering maps with positive counts (Alive), one
all-zero map (Dead). -/
theorem verdict_trichotomy_app :
    (classify (lowerStr hashA) [] = Verdict.failed ∧
      processPair [lineA] [] 9 (0, hashA) =
        (CsvRecord.from_line ([lineA].getD 0 "")).map (fun r => (0, some r))) ∧
    (∃ s l, classify (lowerStr hashA) [mapA, mapB] = Verdict.alive s l) ∧
    (classify (lowerStr hashA) [mapZ] = Verdict.dead ∧
      processPair [lineA] [mapZ] 9 (0, hashA) = some (0, none)) := by
  refine ⟨(verdict_trichotomy [lineA] [] 9 0 hashA).1 (by simp), ?_, ?_⟩
  · exact ⟨_, _, ((verdict_trichotomy [lineA] [mapA, mapB] 9 0 hashA).2.1
      ⟨mapA, by decide, ⟨2, 3⟩, by decide, Or.inl (by decide)⟩).1⟩
  · refine (verdict_trichotomy [lineA] [mapZ] 9 0 hashA).2.2 ⟨⟨mapZ, by decide, by decide⟩, ?_⟩
    intro m hm v hv
    rw [List.mem_singleton] at hm
    subst hm
    have h0 : mget mapZ (lowerStr hashA) = some ⟨0, 0⟩ := by decide
    rw [h0] at hv
    cases hv
    exact ⟨rfl, rfl⟩

/-- Claim C10: under an Alive verdict, an emitted record differs from
the parsed original line only in seeders, leechers and scraped_date;
infohash, name, size_bytes, created_unix and completed are copied
exactly. -/
theorem alive_frame_preserved (dataLines : List String) (rs : List ResultMap)
    (now : Int) (idx : Nat) (hash : String) (r : CsvRecord)
    (hr : CsvRecord.from_line (dataLines.getD idx "") = some r)
    (s l : Nat) (hv : classify (lowerStr hash) rs = Verdict.alive s l) :
    processPair dataLines rs now (idx, hash) =
      some (idx, some
        { infohash := r.infohash, name := r.name, size_bytes := r.size_bytes,
          created_unix := r.created_unix, seeders := s, leechers := l,
          completed := r.completed, scraped_date := now }) := by
  simp only [classify] at hv
  by_cases h1 : (consolidateStats (lowerStr hash) rs).2.2 = false
  · rw [if_pos h1] at hv
    exact absurd hv (by simp)
  · rw [if_neg h1] at hv
    by_cases h2 : 0 < (consolidateStats (lowerStr hash) rs).1 ∨
        0 < (consolidateStats (lowerStr hash) rs).2.1
    · rw [if_pos h2] at hv
      obtain ⟨hs, hl⟩ : (consolidateStats (lowerStr hash) rs).1 = s ∧
          (consolidateStats (lowerStr hash) rs).2.1 = l := by
        simpa using hv
      simp only [processPair]
      rw [if_neg h1, if_pos h2, hr, hs, hl]
      rfl
    · rw [if_neg h2] at hv
      exact absurd hv (by simp)

/-- Witness for C10 at a concrete line and tracker answer. -/
theorem alive_frame_preserved_app :
    processPair [lineA] [mapA] 9 (0, hashA) =
      some (0, some
        { infohash := hashA, name := "name", size_bytes := "100",
          created_unix := "200", seeders := 2, leechers := 3,
          completed := "3", scraped_date := 9 }) :=
  alive_frame_preserved [lineA] [mapA] 9 0 hashA
    { infohash := hashA, name := "name", size_bytes := "100",
      created_unix := "200", seeders := 5, leechers := 0,
      completed := "3", scraped_date := 4 }
    (by decide) 2 3 (by decide)

theorem countStats_foldl (l : List (Nat × Option CsvRecord)) :
    ∀ s, l.foldl countStep s =
      (s.1 + l.length, s.2.1 + l.countP emittedAlive,
       s.2.2.1 + l.countP emittedDead, s.2.2.2 + l.countP emittedFailed) := by
  induction l with
  | nil => intro s; simp
  | cons a t ih =>
    intro s
    rw [List.foldl_cons, ih]
    rcases ha : a.2 with _ | c
    · have hstep : countStep s a = (s.1 + 1, s.2.1, s.2.2.1 + 1, s.2.2.2) := by
        simp [countStep, ha]
      have hA : emittedAlive a = false := by simp [emittedAlive, ha]
      have hD : emittedDead a = true := by simp [emittedDead, ha]
      have hF : emittedFailed a = false := by simp [emittedFailed, ha]
      rw [hstep]
      simp only [List.countP_cons, List.length_cons, hA, hD, hF, Prod.mk.injEq,
        if_true, Bool.false_eq_true, if_false]
      refine ⟨by omega, by omega, by omega, by omega⟩
    · have hstep : countStep s a =
          if 0 < c.seeders ∨ 0 < c.leechers then (s.1 + 1, s.2.1 + 1, s.2.2.1, s.2.2.2)
          else (s.1 + 1, s.2.1, s.2.2.1, s.2.2.2 + 1) := by
        simp [countStep, ha]
      rw [hstep]
      by_cases hz : 0 < c.seeders ∨ 0 < c.leechers
      · have hA : emittedAlive a = true := by simp [emittedAlive, ha, hz]
        have hD : emittedDead a = false := by simp [emittedDead, ha]
        have hF : emittedFailed a = false := by
          have hnz : ¬(c.seeders = 0 ∧ c.leechers = 0) := by omega
          simp [emittedFailed, ha, hnz]
        rw [if_pos hz]
        simp only [List.countP_cons, List.length_cons, hA, hD, hF, Prod.mk.injEq,
          if_true, Bool.false_eq_true, if_false]
        refine ⟨by omega, by omega, by omega, by omega⟩
      · have hA : emittedAlive a = false := by simp [emittedAlive, ha, hz]
        have hD : emittedDead a = false := by simp [emittedDead, ha]
        have hF : emittedFailed a = true := by
          have hnz : c.seeders = 0 ∧ c.leechers = 0 := by omega
          simp [emittedFailed, ha, hnz]
        rw [if_neg hz]
        simp only [List.countP_cons, List.length_cons, hA, hD, hF, Prod.mk.injEq,
          if_true, Bool.false_eq_true, if_false]
        refine ⟨by omega, by omega, by omega, by omega⟩

theorem countStats_eq (l : List (Nat × Option CsvRecord)) :
    countStats l =
      (l.length, l.countP emittedAlive, l.countP emittedDead, l.countP emittedFailed) := by
  rw [countStats, countStats_foldl]
  simp

theorem length_filterMap_countP {α β : Type} (f : α → Option β) (l : List α) :
    (l.filterMap f).length = l.countP (fun a => (f a).isSome) := by
  induction l with
  | nil => rfl
  | cons a t ih =>
    rw [List.filterMap_cons]
    rcases hf : f a with _ | b
    · rw [List.countP_cons]
      simp [hf, ih]
    · rw [List.countP_cons]
      simp [hf, ih]

theorem countP_filterMap_countP {α β : Type} (f : α → Option β) (q : β → Bool) (l : List α) :
    (l.filterMap f).countP q = l.countP (fun a => ((f a).map q).getD false) := by
  induction l with
  | nil => rfl
  | cons a t ih =>
    rw [List.filterMap_cons]
    rcases hf : f a with _ | b
    · rw [List.countP_cons]
      simp [hf, ih]
    · rw [List.countP_cons, List.countP_cons]
      simp [hf, ih]

/-- How the counter loop of `main` (lines 362-371) classifies the entry
emitted for one (index, hash) pair, expressed through the verdict: the
entry exists unless a Failed/Alive line fails to parse; it counts as
alive when Alive, or when Failed with a stored record that already had
positive counts; as dead exactly when Dead; as failed when Failed with
a zero stored record. -/
theorem processPair_counters (dataLines : List String) (rs : List ResultMap)
    (now : Int) (p : Nat × String) :
    ((processPair dataLines rs now p).isSome
        = (vIsDead (classify (lowerStr p.2) rs) || parsesOk dataLines p.1)) ∧
    (((processPair dataLines rs now p).map emittedAlive).getD false
        = (parsesOk dataLines p.1 &&
            (vIsAlive (classify (lowerStr p.2) rs) ||
             (vIsFailed (classify (lowerStr p.2) rs) && origNonzero dataLines p.1)))) ∧
    (((processPair dataLines rs now p).map emittedDead).getD false
        = vIsDead (classify (lowerStr p.2) rs)) ∧
    (((processPair dataLines rs now p).map emittedFailed).getD false
        = (parsesOk dataLines p.1 && vIsFailed (classify (lowerStr p.2) rs) &&
           !origNonzero dataLines p.1)) := by
  by_cases h1 : (consolidateStats (lowerStr p.2) rs).2.2 = false
  · have hcl : classify (lowerStr p.2) rs = Verdict.failed := by
      simp only [classify]
      rw [if_pos h1]
    simp only [processPair, parsesOk, origNonzero, hcl, vIsAlive, vIsDead, vIsFailed]
    rw [if_pos h1]
    cases hparse : CsvRecord.from_line (dataLines.getD p.1 "") with
    | none => simp
    | some r =>
      by_cases hz : 0 < r.seeders ∨ 0 < r.leechers
      · have hnz : ¬(r.seeders = 0 ∧ r.leechers = 0) := by omega
        simp [emittedAlive, emittedDead, emittedFailed, hz, hnz]
      · have hz2 : r.seeders = 0 ∧ r.leechers = 0 := by omega
        simp [emittedAlive, emittedDead, emittedFailed, hz, hz2]
  · by_cases h2 : 0 < (consolidateStats (lowerStr p.2) rs).1 ∨
        0 < (consolidateStats (lowerStr p.2) rs).2.1
    · have hcl : classify (lowerStr p.2) rs =
          Verdict.alive (consolidateStats (lowerStr p.2) rs).1
            (consolidateStats (lowerStr p.2) rs).2.1 := by
        simp only [classify]
        rw [if_neg h1, if_pos h2]
      simp only [processPair, parsesOk, origNonzero, hcl, vIsAlive, vIsDead, vIsFailed]
      rw [if_neg h1, if_pos h2]
      cases hparse : CsvRecord.from_line (dataLines.getD p.1 "") with
      | none => simp
      | some r =>
        have hnz : ¬((consolidateStats (lowerStr p.2) rs).1 = 0 ∧
            (consolidateStats (lowerStr p.2) rs).2.1 = 0) := by omega
        simp [emittedAlive, emittedDead, emittedFailed, h2, hnz]
    · have hcl : classify (lowerStr p.2) rs = Verdict.dead := by
        simp only [classify]
        rw [if_neg h1, if_neg h2]
      simp only [processPair, parsesOk, origNonzero, hcl, vIsAlive, vIsDead, vIsFailed]
      rw [if_neg h1, if_neg h2]
      simp [emittedAlive, emittedDead, emittedFailed]

/-- Claim C7 (amended): the progress counters classify each emitted
entry by the seeder/leecher values of the emitted record, not by the
verdict.  Processed counts the emitted entries (all Dead verdicts, plus
Failed/Alive verdicts whose line parses); dead counts exactly the Dead
verdicts; alive counts Alive verdicts and also Failed verdicts whose
kept original record has positive counts; failed counts only Failed
verdicts whose kept record has zero counts. -/
theorem counter_characterization (batchIndices : List Nat) (batchHashes : List String)
    (dataLines : List String) (rs : List ResultMap) (now : Int)
    (hne : batchHashBytes batchHashes ≠ []) :
    countStats (process_batch batchIndices batchHashes dataLines rs now) =
      ((batchIndices.zip batchHashes).countP
          (fun p => vIsDead (classify (lowerStr p.2) rs) || parsesOk dataLines p.1),
       (batchIndices.zip batchHashes).countP
          (fun p => parsesOk dataLines p.1 &&
            (vIsAlive (classify (lowerStr p.2) rs) ||
             (vIsFailed (classify (lowerStr p.2) rs) && origNonzero dataLines p.1))),
       (batchIndices.zip batchHashes).countP
          (fun p => vIsDead (classify (lowerStr p.2) rs)),
       (batchIndices.zip batchHashes).countP
          (fun p => parsesOk dataLines p.1 && vIsFailed (classify (lowerStr p.2) rs) &&
            !origNonzero dataLines p.1)) := by
  have e1 : (batchIndices.zip batchHashes).countP
        (fun a => (processPair dataLines rs now a).isSome)
      = (batchIndices.zip batchHashes).countP
        (fun p => vIsDead (classify (lowerStr p.2) rs) || parsesOk dataLines p.1) :=
    List.countP_congr (fun x _ => by rw [(processPair_counters dataLines rs now x).1])
  have e2 : (batchIndices.zip batchHashes).countP
        (fun a => ((processPair dataLines rs now a).map emittedAlive).getD false)
      = (batchIndices.zip batchHashes).countP
        (fun p => parsesOk dataLines p.1 &&
          (vIsAlive (classify (lowerStr p.2) rs) ||
           (vIsFailed (classify (lowerStr p.2) rs) && origNonzero dataLines p.1))) :=
    List.countP_congr (fun x _ => by rw [(processPair_counters dataLines rs now x).2.1])
  have e3 : (batchIndices.zip batchHashes).countP
        (fun a => ((processPair dataLines rs now a).map emittedDead).getD false)
      = (batchIndices.zip batchHashes).countP
        (fun p => vIsDead (classify (lowerStr p.2) rs)) :=
    List.countP_congr (fun x _ => by rw [(processPair_counters dataLines rs now x).2.2.1])
  have e4 : (batchIndices.zip batchHashes).countP
        (fun a => ((processPair dataLines rs now a).map emittedFailed).getD false)
      = (batchIndices.zip batchHashes).countP
        (fun p => parsesOk dataLines p.1 && vIsFailed (classify (lowerStr p.2) rs) &&
          !origNonzero dataLines p.1) :=
    List.countP_congr (fun x _ => by rw [(processPair_counters dataLines rs now x).2.2.2])
  unfold process_batch
  rw [if_neg hne, countStats_eq, length_filterMap_countP, countP_filterMap_countP,
    countP_filterMap_countP, countP_filterMap_countP, e1, e2, e3, e4]

/-- Witness for C7 on a one-line batch with no tracker answers. -/
theorem counter_characterization_app :
    countStats (process_batch [0] [hashA] [lineA] [] 0) =
      (([0].zip [hashA]).countP
          (fun p => vIsDead (classify (lowerStr p.2) []) || parsesOk [lineA] p.1),
       ([0].zip [hashA]).countP
          (fun p => parsesOk [lineA] p.1 &&
            (vIsAlive (classify (lowerStr p.2) []) ||
             (vIsFailed (classify (lowerStr p.2) []) && origNonzero [lineA] p.1))),
       ([0].zip [hashA]).countP
          (fun p => vIsDead (classify (lowerStr p.2) [])),
       ([0].zip [hashA]).countP
          (fun p => parsesOk [lineA] p.1 && vIsFailed (classify (lowerStr p.2) []) &&
            !origNonzero [lineA] p.1)) :=
  counter_characterization [0] [hashA] [lineA] [] 0 (by decide)

/-- Counterexample to C7 as stated: `hashA` receives no answer from any
tracker, so its verdict is Failed, yet because its stored record still
claims 5 seeders the counters report it as alive — processed 1, alive
1, dead 0, failed 0 — not as failed. -/
theorem failed_counted_alive :
    classify (lowerStr hashA) [] = Verdict.failed ∧
    countStats (process_batch [0] [hashA] [lineA] [] 0) = (1, 1, 0, 0) := by
  exact ⟨by decide, by decide⟩

/-- Membership in the batch built for window start `i`. -/
theorem mem_batchFor {dataLines : List String} {i idx : Nat} {h : String} :
    (idx, h) ∈ batchFor dataLines i ↔
      (i ≤ idx ∧ idx < min (i + 50) dataLines.length ∧
       firstField (dataLines.getD idx "") ≠ "" ∧
       utf8Len (firstField (dataLines.getD idx "")).data = 40 ∧
       h = firstField (dataLines.getD idx "")) := by
  simp only [batchFor]
  rw [List.mem_filterMap]
  constructor
  · rintro ⟨a, ha, hfa⟩
    rw [List.mem_range'_1] at ha
    by_cases hc : firstField (dataLines.getD a "") ≠ "" ∧
        utf8Len (firstField (dataLines.getD a "")).data = 40
    · rw [if_pos hc] at hfa
      obtain ⟨rfl, rfl⟩ : a = idx ∧ firstField (dataLines.getD a "") = h := by
        simpa using hfa
      exact ⟨by omega, by omega, hc.1, hc.2, rfl⟩
    · rw [if_neg hc] at hfa
      cases hfa
  · rintro ⟨h1, h2, h3, h4, rfl⟩
    refine ⟨idx, ?_, ?_⟩
    · rw [List.mem_range'_1]
      omega
    · rw [if_pos ⟨h3, h4⟩]

/-- The window starts are exactly the multiples of 50 below the total. -/
theorem mem_batchStarts {total i : Nat} :
    i ∈ batchStarts total ↔ i % 50 = 0 ∧ i < total := by
  unfold batchStarts
  rw [List.mem_flatten]
  constructor
  · rintro ⟨l, hl, hil⟩
    rw [List.mem_map] at hl
    obtain ⟨c, hc, rfl⟩ := hl
    rw [List.mem_range] at hc
    rw [List.mem_filterMap] at hil
    obtain ⟨off, hoff, hsome⟩ := hil
    rw [List.mem_range] at hoff
    by_cases hlt : 500 * c + 50 * off < total
    · rw [if_pos hlt] at hsome
      obtain rfl : 500 * c + 50 * off = i := by simpa using hsome
      exact ⟨by omega, hlt⟩
    · rw [if_neg hlt] at hsome
      cases hsome
  · rintro ⟨hmod, hlt⟩
    refine ⟨(List.range 10).filterMap (fun off =>
        if 500 * (i / 500) + 50 * off < total then some (500 * (i / 500) + 50 * off)
        else none), ?_, ?_⟩
    · rw [List.mem_map]
      refine ⟨i / 500, ?_, rfl⟩
      rw [List.mem_range]
      omega
    · rw [List.mem_filterMap]
      refine ⟨i % 500 / 50, ?_, ?_⟩
      · rw [List.mem_range]
        omega
      · have he : 500 * (i / 500) + 50 * (i % 500 / 50) = i := by omega
        rw [he, if_pos hlt]

/-- Successive window starts are at least 50 apart. -/
theorem batchStarts_pairwise (total : Nat) :
    List.Pairwise (fun a b => a + 50 ≤ b) (batchStarts total) := by
  unfold batchStarts
  rw [List.pairwise_flatten]
  constructor
  · intro l hl
    rw [List.mem_map] at hl
    obtain ⟨c, _, rfl⟩ := hl
    refine List.Pairwise.filterMap _ ?_ (List.pairwise_lt_range 10)
    intro a a2 haa b hb b2 hb2
    rw [Option.mem_def] at hb hb2
    by_cases h1 : 500 * c + 50 * a < total
    · rw [if_pos h1] at hb
      by_cases h2 : 500 * c + 50 * a2 < total
      · rw [if_pos h2] at hb2
        obtain rfl := Option.some.inj hb
        obtain rfl := Option.some.inj hb2
        omega
      · rw [if_neg h2] at hb2
        cases hb2
    · rw [if_neg h1] at hb
      cases hb
  · rw [List.pairwise_map]
    refine (List.pairwise_lt_range _).imp ?_
    intro c1 c2 hc x hx y hy
    rw [List.mem_filterMap] at hx hy
    obtain ⟨o1, ho1, hs1⟩ := hx
    obtain ⟨o2, ho2, hs2⟩ := hy
    rw [List.mem_range] at ho1 ho2
    by_cases h1 : 500 * c1 + 50 * o1 < total
    · rw [if_pos h1] at hs1
      by_cases h2 : 500 * c2 + 50 * o2 < total
      · rw [if_pos h2] at hs2
        obtain rfl := Option.some.inj hs1
        obtain rfl := Option.some.inj hs2
        omega
      · rw [if_neg h2] at hs2
        cases hs2
    · rw [if_neg h1] at hs1
      cases hs1

/-- Indices inside one batch are strictly increasing. -/
theorem batchFor_pairwise (dataLines : List String) (i : Nat) :
    List.Pairwise (fun p q => p.1 < q.1) (batchFor dataLines i) := by
  simp only [batchFor]
  refine List.Pairwise.filterMap _ ?_ (List.pairwise_lt_range' i _ 1)
  intro a a2 haa b hb b2 hb2
  rw [Option.mem_def] at hb hb2
  by_cases h1 : firstField (dataLines.getD a "") ≠ "" ∧
      utf8Len (firstField (dataLines.getD a "")).data = 40
  · rw [if_pos h1] at hb
    by_cases h2 : firstField (dataLines.getD a2 "") ≠ "" ∧
        utf8Len (firstField (dataLines.getD a2 "")).data = 40
    · rw [if_pos h2] at hb2
      obtain rfl := Option.some.inj hb
      obtain rfl := Option.some.inj hb2
      exact haa
    · rw [if_neg h2] at hb2
      cases hb2
  · rw [if_neg h1] at hb
    cases hb

/-- A batch holds at most 50 identifiers. -/
theorem batchFor_length_le (dataLines : List String) (i : Nat) :
    (batchFor dataLines i).length ≤ 50 := by
  simp only [batchFor]
  refine le_trans (List.length_filterMap_le _ _) ?_
  rw [List.length_range']
  omega

/-- Membership in the planned batch list. -/
theorem mem_planBatches {dataLines : List String} {b : List (Nat × String)} :
    b ∈ planBatches dataLines ↔
      ((∃ i, i ∈ batchStarts dataLines.length ∧ b = batchFor dataLines i) ∧ b ≠ []) := by
  unfold planBatches
  rw [List.mem_filter, List.mem_map]
  constructor
  · rintro ⟨⟨i, hi, rfl⟩, hne⟩
    refine ⟨⟨i, hi, rfl⟩, ?_⟩
    simpa using hne
  · rintro ⟨⟨i, hi, rfl⟩, hne⟩
    refine ⟨⟨i, hi, rfl⟩, ?_⟩
    simpa using hne

/-- Batches are listed in strictly increasing index order:
all indices of an earlier batch are below all indices of a later one. -/
theorem planBatches_pairwise (dataLines : List String) :
    List.Pairwise (fun b1 b2 => ∀ p ∈ b1, ∀ q ∈ b2, p.1 < q.1) (planBatches dataLines) := by
  unfold planBatches
  refine List.Pairwise.filter _ ?_
  rw [List.pairwise_map]
  refine (batchStarts_pairwise dataLines.length).imp ?_
  intro i j hij p hp q hq
  obtain ⟨pi, ph⟩ := p
  obtain ⟨qi, qh⟩ := q
  rw [mem_batchFor] at hp hq
  simp only
  omega

/-- An (index, hash) pair lies in some planned batch exactly when the
index is in range and the line's first field is a nonempty 40-byte
string, in which case the hash is that field. -/
theorem mem_planBatches_pair {dataLines : List String} {idx : Nat} {h : String} :
    (∃ b ∈ planBatches dataLines, (idx, h) ∈ b) ↔
      (idx < dataLines.length ∧ firstField (dataLines.getD idx "") ≠ "" ∧
       utf8Len (firstField (dataLines.getD idx "")).data = 40 ∧
       h = firstField (dataLines.getD idx "")) := by
  constructor
  · rintro ⟨b, hb, hmem⟩
    rw [mem_planBatches] at hb
    obtain ⟨⟨i, hi, rfl⟩, -⟩ := hb
    rw [mem_batchFor] at hmem
    exact ⟨by omega, hmem.2.2.1, hmem.2.2.2.1, hmem.2.2.2.2⟩
  · rintro ⟨h1, h2, h3, rfl⟩
    have hmem : (idx, firstField (dataLines.getD idx "")) ∈
        batchFor dataLines (50 * (idx / 50)) := by
      rw [mem_batchFor]
      exact ⟨by omega, by omega, h2, h3, rfl⟩
    refine ⟨batchFor dataLines (50 * (idx / 50)), ?_, hmem⟩
    rw [mem_planBatches]
    exact ⟨⟨50 * (idx / 50), mem_batchStarts.mpr ⟨by omega, by omega⟩, rfl⟩,
      List.ne_nil_of_mem hmem⟩

/-- Claim C3 (amended): the planned batches are pairwise disjoint,
ordered within and across batches, of size at most 50 (which is at most
the protocol cap 74), and cover exactly the input lines whose first
`;`-field is nonempty and exactly 40 bytes long — the planning-time
check; the 20-byte hex-decode check is applied only later inside batch
processing. -/
theorem planBatches_partition (dataLines : List String) :
    (∀ b ∈ planBatches dataLines, b.length ≤ 50 ∧ 50 ≤ 74) ∧
    (∀ b ∈ planBatches dataLines, List.Pairwise (fun p q => p.1 < q.1) b) ∧
    List.Pairwise (fun b1 b2 => ∀ p ∈ b1, ∀ q ∈ b2, p.1 < q.1) (planBatches dataLines) ∧
    List.Pairwise (fun b1 b2 => ∀ p ∈ b1, ∀ q ∈ b2, p.1 ≠ q.1) (planBatches dataLines) ∧
    (∀ idx h, (∃ b ∈ planBatches dataLines, (idx, h) ∈ b) ↔
      (idx < dataLines.length ∧ firstField (dataLines.getD idx "") ≠ "" ∧
       utf8Len (firstField (dataLines.getD idx "")).data = 40 ∧
       h = firstField (dataLines.getD idx ""))) := by
  refine ⟨?_, ?_, planBatches_pairwise dataLines, ?_, fun idx h => mem_planBatches_pair⟩
  · intro b hb
    rw [mem_planBatches] at hb
    obtain ⟨⟨i, _, rfl⟩, -⟩ := hb
    exact ⟨batchFor_length_le dataLines i, by omega⟩
  · intro b hb
    rw [mem_planBatches] at hb
    obtain ⟨⟨i, _, rfl⟩, -⟩ := hb
    exact batchFor_pairwise dataLines i
  · refine (planBatches_pairwise dataLines).imp ?_
    intro b1 b2 hlt p hp q hq
    exact Nat.ne_of_lt (hlt p hp q hq)

/-- Witness for C3: the valid identifier of `lineA` lands in a batch. -/
theorem planBatches_partition_app :
    ∃ b ∈ planBatches [lineA], (0, hashA) ∈ b :=
  ((planBatches_partition [lineA]).2.2.2.2 0 hashA).mpr (by decide)

/-- Counterexample to C3 as stated: a 40-byte first field made of 'g'
characters is placed in a batch although it does not hex-decode to 20
bytes, so the batches cover more than the identifiers that decode to
exactly 20 bytes. -/
theorem planBatches_not_hex_filtered :
    ∃ b ∈ planBatches [lineG], ∃ p ∈ b, hexDecode p.2 = none := by
  decide

/-- Claim C4 (amended): lines whose first field is empty or not exactly
40 bytes are rejected at planning time — every batched pair carries the
40-byte first field of its line — and the byte strings handed to the
network are exactly the 20-byte hex decodings of batched identifiers,
so a 40-byte non-hex identifier reaches no tracker; but such an
identifier is still batched and still receives a verdict, and no
"skipped" report exists. -/
theorem malformed_excluded (dataLines : List String) (idx : Nat) (h : String)
    (batchHashes : List String) (bs : List Nat) :
    ((∃ b ∈ planBatches dataLines, (idx, h) ∈ b) →
        h = firstField (dataLines.getD idx "") ∧ h ≠ "" ∧ utf8Len h.data = 40) ∧
    (bs ∈ batchHashBytes batchHashes →
        bs.length = 20 ∧ ∃ g ∈ batchHashes, hexDecode g = some bs) := by
  constructor
  · intro hb
    obtain ⟨h1, h2, h3, rfl⟩ := mem_planBatches_pair.mp hb
    exact ⟨rfl, h2, h3⟩
  · intro hbs
    unfold batchHashBytes at hbs
    rw [List.mem_filter] at hbs
    obtain ⟨hmem, hlen⟩ := hbs
    rw [List.mem_filterMap] at hmem
    obtain ⟨g, hg, hdec⟩ := hmem
    exact ⟨by simpa using hlen, g, hg, hdec⟩

/-- Witness for C4: the hex identifier `hashA` decodes to the 20-byte
string actually sent to the network. -/
theorem malformed_excluded_app :
    (List.replicate 20 170 : List Nat).length = 20 ∧
    ∃ g ∈ [hashA], hexDecode g = some (List.replicate 20 170) :=
  (malformed_excluded [] 0 "" [hashA] (List.replicate 20 170)).2 (by decide)

/-- Counterexample to C4 as stated: the 40-byte non-hex identifier
`hashG` is not rejected at planning time — it is batched — and it is
not excluded from all verdicts: the batch emits a (kept) record for it,
which also feeds the progress counters; nothing reports it as skipped. -/
theorem malformed_gets_verdict :
    (∃ b ∈ planBatches [lineG], (0, hashG) ∈ b) ∧
    hexDecode hashG = none ∧
    (∃ r, process_batch [0] [hashG] [lineG] [] 0 = [(0, some r)]) := by
  refine ⟨by decide, by decide,
    ⟨{ infohash := hashG, name := "n", size_bytes := "1", created_unix := "2",
       seeders := 3, leechers := 4, completed := "5", scraped_date := 6 }, by decide⟩⟩

theorem mget_cons_self (k : String) (v : TorrentStats) (acc : ResultMap) :
    mget ((k, v) :: acc) k = some v := by
  simp [mget]

theorem mget_cons_ne {k k2 : String} (v : TorrentStats) (acc : ResultMap)
    (hne : ¬ k2 = k) : mget ((k2, v) :: acc) k = mget acc k := by
  have hb : ((k2, v).1 == k) = false := by
    simp [hne]
  unfold mget
  rw [List.find?_cons_of_neg _ (by simp [hne])]

theorem mget_nil (k : String) : mget [] k = none := rfl

theorem get?_eq_some_byteAt {l : List Nat} {i : Nat} (h : i < l.length) :
    l.get? i = some (byteAt l i) := by
  unfold byteAt
  cases hg : l.get? i with
  | none =>
    rw [List.get?_eq_none] at hg
    omega
  | some b =>
    rfl

theorem readRecord_of_le {resp : List Nat} {offset : Nat}
    (h : offset + 12 ≤ resp.length) :
    readRecord resp offset =
      some ⟨be32at resp offset, be32at resp (offset + 8)⟩ := by
  unfold readRecord
  rw [get?_eq_some_byteAt (show offset < resp.length by omega),
    get?_eq_some_byteAt (show offset + 1 < resp.length by omega),
    get?_eq_some_byteAt (show offset + 2 < resp.length by omega),
    get?_eq_some_byteAt (show offset + 3 < resp.length by omega),
    get?_eq_some_byteAt (show offset + 8 < resp.length by omega),
    get?_eq_some_byteAt (show offset + 9 < resp.length by omega),
    get?_eq_some_byteAt (show offset + 10 < resp.length by omega),
    get?_eq_some_byteAt (show offset + 11 < resp.length by omega)]
  rfl

/-- Loop invariant of the scrape record loop: starting at offset
`8 + 12 * j` with accumulator `acc`, the loop never fails, every hash
whose record fits inside the response receives the record read at its
position, and every other key keeps its accumulator binding. -/
theorem scrapeLoop_spec (resp : List Nat) :
    ∀ (hashes : List (List Nat)) (j : Nat) (acc : ResultMap),
      (hashes.map hexKey).Nodup →
      ∃ m, scrapeLoop resp hashes (8 + 12 * j) acc = some m ∧
        (∀ i, (hi : i < hashes.length) →
          mget m (hexKey (hashes.get ⟨i, hi⟩)) =
            if 8 + 12 * (j + i) + 12 ≤ resp.length
            then some ⟨be32at resp (8 + 12 * (j + i)), be32at resp (8 + 12 * (j + i) + 8)⟩
            else mget acc (hexKey (hashes.get ⟨i, hi⟩))) ∧
        (∀ key, key ∉ hashes.map hexKey → mget m key = mget acc key) := by
  intro hashes
  induction hashes with
  | nil =>
    intro j acc hnd
    exact ⟨acc, rfl, fun i hi => absurd hi (by simp), fun key hk => rfl⟩
  | cons h t ih =>
    intro j acc hnd
    rw [List.map_cons, List.nodup_cons] at hnd
    obtain ⟨hkey, hnd⟩ := hnd
    by_cases hb : 8 + 12 * j + 12 ≤ resp.length
    · have hr : readRecord resp (8 + 12 * j) =
          some ⟨be32at resp (8 + 12 * j), be32at resp (8 + 12 * j + 8)⟩ :=
        readRecord_of_le hb
      have harith : 8 + 12 * j + 12 = 8 + 12 * (j + 1) := by ring
      have hloop : scrapeLoop resp (h :: t) (8 + 12 * j) acc =
          scrapeLoop resp t (8 + 12 * (j + 1))
            ((hexKey h,
              ⟨be32at resp (8 + 12 * j), be32at resp (8 + 12 * j + 8)⟩) :: acc) := by
        simp only [scrapeLoop]
        rw [if_pos hb, hr, harith]
      obtain ⟨m, hm, h1, h2⟩ := ih (j + 1)
        ((hexKey h, ⟨be32at resp (8 + 12 * j), be32at resp (8 + 12 * j + 8)⟩) :: acc) hnd
      refine ⟨m, by rw [hloop]; exact hm, ?_, ?_⟩
      · intro i hi
        cases i with
        | zero =>
          rw [List.get]
          rw [h2 (hexKey h) hkey, mget_cons_self]
          rw [if_pos (by omega)]
          have : j + 0 = j := by ring
          rw [this]
        | succ i2 =>
          have hi2 : i2 < t.length := by simpa using hi
          have hgs : (h :: t).get ⟨i2 + 1, hi⟩ = t.get ⟨i2, hi2⟩ := rfl
          rw [hgs]
          have hx := h1 i2 hi2
          have harith2 : j + 1 + i2 = j + (i2 + 1) := by ring
          rw [harith2] at hx
          rw [hx]
          by_cases hc : 8 + 12 * (j + (i2 + 1)) + 12 ≤ resp.length
          · rw [if_pos hc, if_pos hc]
          · rw [if_neg hc, if_neg hc]
            refine mget_cons_ne _ _ ?_
            intro he
            exact hkey (he ▸ List.mem_map_of_mem hexKey (t.get_mem i2 _))
      · intro key hk
        rw [List.map_cons, List.mem_cons] at hk
        rw [h2 key (fun hmem => hk (Or.inr hmem))]
        exact mget_cons_ne _ _ (fun he => hk (Or.inl he.symm))
    · have hloop : scrapeLoop resp (h :: t) (8 + 12 * j) acc =
          scrapeLoop resp t (8 + 12 * j) acc := by
        simp only [scrapeLoop]
        rw [if_neg hb]
      obtain ⟨m, hm, h1, h2⟩ := ih j acc hnd
      refine ⟨m, by rw [hloop]; exact hm, ?_, ?_⟩
      · intro i hi
        cases i with
        | zero =>
          rw [List.get]
          rw [h2 (hexKey h) hkey]
          rw [if_neg (by omega)]
        | succ i2 =>
          have hi2 : i2 < t.length := by simpa using hi
          have hgs : (h :: t).get ⟨i2 + 1, hi⟩ = t.get ⟨i2, hi2⟩ := rfl
          rw [hgs]
          have hx := h1 i2 hi2
          rw [hx]
          have hc : ¬ (8 + 12 * (j + i2) + 12 ≤ resp.length) := by omega
          have hc2 : ¬ (8 + 12 * (j + (i2 + 1)) + 12 ≤ resp.length) := by omega
          rw [if_neg hc, if_neg hc2]
      · intro key hk
        rw [List.map_cons, List.mem_cons] at hk
        exact h2 key (fun hmem => hk (Or.inr hmem))

/-- Claim C5: for a scrape response with a valid header (at least the
8 header bytes, action 2, echoed transaction id) answering a request of
at most 74 identifiers with distinct keys, decoding always succeeds
(`some`, i.e. no panic or out-of-bounds index): exactly the first
`min k ((n - 8) / 12)` identifiers in request order receive an
observation whose seeders are bytes 0-3 and leechers bytes 8-11 of
their 12-byte record, and identifiers whose record is not fully present
are absent from the map, not zero. -/
theorem decode_scrape_spec (resp : List Nat) (transId : Nat) (hashes : List (List Nat))
    (hlen : hashes.length ≤ 74) (hnd : (hashes.map hexKey).Nodup)
    (hn : 8 ≤ resp.length) (hact : be32at resp 0 = 2) (htr : be32at resp 4 = transId) :
    ∃ m, decodeScrapeResponse resp transId hashes = some m ∧
      ∀ i, (hi : i < hashes.length) →
        mget m (hexKey (hashes.get ⟨i, hi⟩)) =
          if i < min hashes.length ((resp.length - 8) / 12)
          then some ⟨be32at resp (8 + 12 * i), be32at resp (8 + 12 * i + 8)⟩
          else none := by
  have htake : hashes.take (min 74 hashes.length) = hashes := by
    rw [Nat.min_eq_right hlen, List.take_length]
  obtain ⟨m, hm, h1, h2⟩ := scrapeLoop_spec resp hashes 0 [] hnd
  refine ⟨m, ?_, ?_⟩
  · unfold decodeScrapeResponse
    rw [if_pos ⟨hn, hact, htr⟩, htake]
    have h8 : (8 : Nat) + 12 * 0 = 8 := by ring
    rw [← h8]
    exact hm
  · intro i hi
    have hx := h1 i hi
    rw [Nat.zero_add] at hx
    rw [hx]
    by_cases hc : i < min hashes.length ((resp.length - 8) / 12)
    · rw [if_pos (by omega), if_pos hc]
    · rw [if_neg (by omega), if_neg hc]
      exact mget_nil _

/-- Witness for C5: a 20-byte response holding one complete record for
a two-identifier request: the first identifier receives (5, 3), the
second is absent. -/
theorem decode_scrape_spec_app :
    ∃ m, decodeScrapeResponse respW 7 hashesW = some m ∧
      ∀ i, (hi : i < hashesW.length) →
        mget m (hexKey (hashesW.get ⟨i, hi⟩)) =
          if i < min hashesW.length ((respW.length - 8) / 12)
          then some ⟨be32at respW (8 + 12 * i), be32at respW (8 + 12 * i + 8)⟩
          else none :=
  decode_scrape_spec respW 7 hashesW (by decide) (by decide) (by decide) (by decide)
    (by decide)
